import Mathlib

/-!
Verification of the Drift write-ahead-log core: a shallow embedding of the
log storage/registry layer (`WALManager`), the replay/retry engine
(`DurabilityManager`), the client facade (`DurableWal`) and the handle
builder (`WAL` / `WALBuilder`), together with theorems about each claimed
property.  JavaScript strings are modelled as Lean `String`, JS numbers that
carry millisecond delays and backoff factors as `ℚ`, integer counts as `Int`
or `Nat`, and fallible operations as `Except`/`Option` values.
-/

/-! ## Line splitting and blank-line filtering

`String.prototype.split("\n")` is modelled character-wise by `splitLines`;
`line.trim().length === 0` is modelled by `isBlankLine` (a string trims to
the empty string exactly when all of its characters are whitespace). -/

/-- Model of JavaScript `s.split("\n")` on the character list of `s`:
splits at every newline, keeping empty segments. -/
def splitLines : List Char → List (List Char)
  | [] => [[]]
  | c :: cs =>
    if c = '\n' then [] :: splitLines cs
    else
      match splitLines cs with
      | [] => [[c]]
      | l :: ls => (c :: l) :: ls

/-- Model of JavaScript `s.split("\n")` producing `String` segments. -/
def splitLinesStr (s : String) : List String :=
  (splitLines s.data).map (fun l => ⟨l⟩)

/-- Model of the JavaScript test `line.trim().length === 0`: a line trims to
the empty string exactly when every character is whitespace. -/
def isBlankLine (l : String) : Bool :=
  l.data.all Char.isWhitespace

/-- The non-blank lines of a stored log content, oldest first.  This is the
pipeline `content.split("\n").filter((line) => line.trim().length > 0)`
shared by `DurabilityManager.replay`, `DurabilityManager.getEventCount` and
`DurableWal.inspect`. -/
def nonBlankLines (content : String) : List String :=
  (splitLinesStr content).filter (fun l => !(isBlankLine l))

/-- Embedding of `DurabilityManager.getEventCount`: read the content, split
into lines, filter blank lines, take the length. -/
def getEventCount (content : String) : Nat :=
  (nonBlankLines content).length

/-- Embedding of the record-window selection in `DurabilityManager.replay`:
`count <= 0 ? [] : events.slice(-count)` over the non-blank lines. -/
def eventsToReplay (content : String) (count : Int) : List String :=
  let events := nonBlankLines content
  if count ≤ 0 then [] else events.drop (events.length - count.toNat)

/-- Embedding of the record-window selection in `DurableWal.inspect`:
`numberOfEvents <= 0 ? [] : lines.slice(-numberOfEvents)` over the
non-blank lines. -/
def inspectWindow (content : String) (numberOfEvents : Int) : List String :=
  let lines := nonBlankLines content
  if numberOfEvents ≤ 0 then [] else lines.drop (lines.length - numberOfEvents.toNat)

/-! ## Handle builder and append validation -/

/-- Embedding of the `WAL` handle: an immutable identity value holding the
log file name. -/
structure WAL where
  fileName : String
deriving DecidableEq, Repr

/-- Embedding of `WAL.builder()`: a fresh builder has no file name set. -/
def walBuilderInit : Option String := none

/-- Embedding of `WALBuilder.file(fileName)`: sets the builder's name. -/
def walBuilderFile (_ : Option String) (fileName : String) : Option String :=
  some fileName

/-- Embedding of `WALBuilder.build()`: the guard `if (!this._fileName)`
fails on a missing name and on the empty string (the only falsy string);
any other name is accepted unchanged. -/
def walBuilderBuild : Option String → Except String WAL
  | none => .error "fileName is required"
  | some s => if s = "" then .error "fileName is required" else .ok ⟨s⟩

/-- Embedding of the content validation in `DurableWal.append`:
`!content || content.trim().length === 0` rejects, everything else is
accepted. -/
def acceptsContent (content : String) : Bool :=
  !(content == "" || isBlankLine content)

/-! ## Envelope encoding

`DurableWal.append` serializes `{ id, timestamp, data }` with
`JSON.stringify`.  The encoder below models `JSON.stringify` on that exact
object shape: object braces and fixed keys, JSON string encoding for the two
string fields (escaping quotes, backslashes, and control characters), and
decimal digits for the integer millisecond timestamp. -/

/-- Structured envelope record `WalEntry` from the client interfaces. -/
structure WalEntry where
  id : String
  timestamp : Nat
  data : String
deriving DecidableEq, Repr

/-- Decimal digit character for a value below ten. -/
def digitChar (n : Nat) : Char := Char.ofNat (48 + n)

/-- Lower-case hexadecimal digit character for a value below sixteen. -/
def hexDigit (n : Nat) : Char :=
  if n < 10 then Char.ofNat (48 + n) else Char.ofNat (87 + n)

/-- JSON string escaping of one character, as performed by
`JSON.stringify`: quote, backslash and the named control escapes become
two-character sequences, other control characters become a `\u00XX` escape,
everything else passes through. -/
def jsonEscapeChar (c : Char) : List Char :=
  if c = '"' then ['\\', '"']
  else if c = '\\' then ['\\', '\\']
  else if c = '\n' then ['\\', 'n']
  else if c = '\r' then ['\\', 'r']
  else if c = '\t' then ['\\', 't']
  else if c = '\x08' then ['\\', 'b']
  else if c = '\x0c' then ['\\', 'f']
  else if c.toNat < 32 then
    ['\\', 'u', '0', '0', hexDigit (c.toNat / 16), hexDigit (c.toNat % 16)]
  else [c]

/-- JSON string encoding: surrounding quotes plus the escaped characters. -/
def jsonEncodeString (s : String) : String :=
  ⟨'"' :: (s.data.flatMap jsonEscapeChar) ++ ['"']⟩

/-- Decimal digits of a natural number, accumulated most significant first.
The fuel argument only bounds the recursion; `fuel = n + 1` is always
enough. -/
def natDigits : Nat → Nat → List Char → List Char
  | 0, _, acc => acc
  | fuel + 1, n, acc =>
    if n = 0 then acc else natDigits fuel (n / 10) (digitChar (n % 10) :: acc)

/-- Decimal rendering of a natural number, as `JSON.stringify` renders the
integer millisecond timestamp. -/
def natToDecimal (n : Nat) : String :=
  if n = 0 then "0" else ⟨natDigits (n + 1) n []⟩

/-- Embedding of `JSON.stringify(entry)` for the envelope written by
`DurableWal.append`: `{"id":<id>,"timestamp":<ms>,"data":<data>}` with JSON
string encoding of the two string fields. -/
def serializeEntry (e : WalEntry) : String :=
  "\x7b\"id\":" ++ jsonEncodeString e.id ++ ",\"timestamp\":" ++
    natToDecimal e.timestamp ++ ",\"data\":" ++ jsonEncodeString e.data ++ "\x7d"

/-! ## Envelope decoding

`DurableWal.replay` and `DurableWal.inspect` call `JSON.parse` on each line
and fall back to the raw line when it throws.  `parseEnvelope` models
`JSON.parse` restricted to the envelope lines this system writes (the exact
key order and spacing produced by `serializeEntry`); any other line is
reported as undecodable, i.e. legacy. -/

/-- Numeric value of a hexadecimal digit character, if any. -/
def hexVal (c : Char) : Option Nat :=
  if '0' ≤ c ∧ c ≤ '9' then some (c.toNat - 48)
  else if 'a' ≤ c ∧ c ≤ 'f' then some (c.toNat - 87)
  else if 'A' ≤ c ∧ c ≤ 'F' then some (c.toNat - 55)
  else none

/-- Parse the body of a JSON string literal (everything after the opening
quote), un-escaping as `JSON.parse` does; returns the decoded string and
the rest of the input after the closing quote. -/
def parseStringBody : List Char → List Char → Option (String × List Char)
  | acc, '"' :: cs => some (⟨acc.reverse⟩, cs)
  | acc, '\\' :: '"' :: cs => parseStringBody ('"' :: acc) cs
  | acc, '\\' :: '\\' :: cs => parseStringBody ('\\' :: acc) cs
  | acc, '\\' :: '/' :: cs => parseStringBody ('/' :: acc) cs
  | acc, '\\' :: 'n' :: cs => parseStringBody ('\n' :: acc) cs
  | acc, '\\' :: 'r' :: cs => parseStringBody ('\r' :: acc) cs
  | acc, '\\' :: 't' :: cs => parseStringBody ('\t' :: acc) cs
  | acc, '\\' :: 'b' :: cs => parseStringBody ('\x08' :: acc) cs
  | acc, '\\' :: 'f' :: cs => parseStringBody ('\x0c' :: acc) cs
  | acc, '\\' :: 'u' :: h1 :: h2 :: h3 :: h4 :: cs =>
    match hexVal h1, hexVal h2, hexVal h3, hexVal h4 with
    | some a, some b, some c, some d =>
      parseStringBody (Char.ofNat (((a * 16 + b) * 16 + c) * 16 + d) :: acc) cs
    | _, _, _, _ => none
  | _, '\\' :: _ => none
  | _, [] => none
  | acc, c :: cs => parseStringBody (c :: acc) cs

/-- Consume a run of decimal digits after the first one. -/
def parseNatAux : List Char → Nat → Nat × List Char
  | [], acc => (acc, [])
  | c :: cs, acc =>
    if '0' ≤ c ∧ c ≤ '9' then parseNatAux cs (acc * 10 + (c.toNat - 48))
    else (acc, c :: cs)

/-- Parse a decimal natural number (at least one digit). -/
def parseNat : List Char → Option (Nat × List Char)
  | c :: cs => if '0' ≤ c ∧ c ≤ '9' then some (parseNatAux cs (c.toNat - 48)) else none
  | [] => none

/-- Consume an expected literal chunk of characters. -/
def dropLit (lit : List Char) (cs : List Char) : Option (List Char) :=
  if lit.isPrefixOf cs then some (cs.drop lit.length) else none

/-- Model of `JSON.parse(serialized)` as used on WAL lines: succeeds
exactly on the structured-envelope lines written by this system and yields
the envelope; any other line is undecodable (legacy). -/
def parseEnvelope (s : String) : Option WalEntry := do
  let cs0 ← dropLit "\x7b\"id\":\"".data s.data
  let (id, cs1) ← parseStringBody [] cs0
  let cs2 ← dropLit ",\"timestamp\":".data cs1
  let (ts, cs3) ← parseNat cs2
  let cs4 ← dropLit ",\"data\":\"".data cs3
  let (dat, cs5) ← parseStringBody [] cs4
  let cs6 ← dropLit "\x7d".data cs5
  if cs6 = [] then some ⟨id, ts, dat⟩ else none

/-- Embedding of the wrapped processor built inside `DurableWal.replay`:
`try { const entry = JSON.parse(serialized); await processor(entry.data) }
catch { await processor(serialized) }`.  The `catch` covers both the parse
and the processor call, so a processor failure on the decoded data also
falls through to a second processor invocation on the raw line. -/
def wrappedProcessor (processor : String → Except String Unit)
    (serialized : String) : Except String Unit :=
  match parseEnvelope serialized with
  | some entry =>
    match processor entry.data with
    | .ok _ => .ok ()
    | .error _ => processor serialized
  | none => processor serialized

/-! ## Retry engine

`DurabilityManager` is configured with a `RetryConfig`; delays and the
backoff multiplier are JS numbers, modelled as rationals.  A caller
processor is modelled as a deterministic state machine
`proc : σ → String → σ × Bool`: invoking it on an event from state `t`
yields the successor state and whether the invocation succeeded (`false`
models a thrown error).  Randomness is supplied as an explicit stream
`rand : Nat → ℚ` of `Math.random()` draws in `[0, 1)`, indexed by the
attempt number that consumes them. -/

/-- Embedding of the `RetryConfig` record. -/
structure RetryConfig where
  maxRetries : Nat
  initialDelayMs : ℚ
  maxDelayMs : ℚ
  backoffMultiplier : ℚ
deriving DecidableEq, Repr

/-- The `DEFAULT_RETRY_CONFIG` of `DurabilityManager`. -/
def defaultRetryConfig : RetryConfig :=
  { maxRetries := 3, initialDelayMs := 100, maxDelayMs := 5000, backoffMultiplier := 2 }

/-- Embedding of `DurabilityManager.calculateBackoffDelay`:
`Math.floor` of the capped exponential delay plus a jitter of up to a
quarter of it, where `rand` is the `Math.random()` draw. -/
def calculateBackoffDelay (cfg : RetryConfig) (attempt : Nat) (rand : ℚ) : ℤ :=
  let exponentialDelay := cfg.initialDelayMs * cfg.backoffMultiplier ^ attempt
  let cappedDelay := min exponentialDelay cfg.maxDelayMs
  let jitter := cappedDelay * (1 / 4) * (rand * 2 - 1)
  ⌊cappedDelay + jitter⌋

/-- Outcome of processing one record through the retry loop: the final
success flag, the number of processor invocations (`attemptCount` in the
source), the backoff delays slept between attempts, and the processor's
final state. -/
structure RetryOutcome (σ : Type) where
  success : Bool
  attemptCount : Nat
  delays : List ℤ
  state : σ
deriving Repr

/-- The retry loop of `DurabilityManager.processEventWithRetry`, unrolled
over the number of attempts still allowed after the current one
(`remaining = maxRetries - attempt`): invoke the processor; on success stop
at once; on failure, if attempts remain, compute the backoff delay for the
current attempt index and continue, else give up. -/
def retryFrom {σ : Type} (cfg : RetryConfig) (proc : σ → String → σ × Bool)
    (event : String) (rand : Nat → ℚ) :
    Nat → Nat → σ → RetryOutcome σ
  | remaining, attempt, s =>
    let p := proc s event
    if p.2 then ⟨true, attempt + 1, [], p.1⟩
    else
      match remaining with
      | 0 => ⟨false, attempt + 1, [], p.1⟩
      | r + 1 =>
        let d := calculateBackoffDelay cfg attempt (rand attempt)
        let rest := retryFrom cfg proc event rand r (attempt + 1) p.1
        ⟨rest.success, rest.attemptCount, d :: rest.delays, rest.state⟩

/-- Embedding of `DurabilityManager.processEventWithRetry`: attempts
`0 .. maxRetries` inclusive, starting at attempt `0`. -/
def processEventWithRetry {σ : Type} (cfg : RetryConfig)
    (proc : σ → String → σ × Bool) (event : String) (rand : Nat → ℚ)
    (s : σ) : RetryOutcome σ :=
  retryFrom cfg proc event rand cfg.maxRetries 0 s

/-! ## Replay loop and single-flight guard -/

/-- Embedding of the `ReplayResult` record.  The source never pushes onto
`errors`, so the field stays empty. -/
structure ReplayResult where
  success : Bool
  processedCount : Nat
  failedCount : Nat
  errors : List (String × Nat)
deriving DecidableEq, Repr

/-- The `ReplayResult` accumulator as initialized in
`DurabilityManager.replay`. -/
def initReplayResult : ReplayResult :=
  { success := true, processedCount := 0, failedCount := 0, errors := [] }

/-- The sequential record loop of `DurabilityManager.replay`: one retry run
per record, counting successes and failures, never aborting, and invoking
`onEventProcessed` once per record with its final outcome (modelled as the
accumulated `(event, success)` trace).  `rands i` is the random stream used
while processing the `i`-th record of the window. -/
def replayLoop {σ : Type} (cfg : RetryConfig) (proc : σ → String → σ × Bool)
    (rands : Nat → Nat → ℚ) :
    List String → Nat → σ → ReplayResult → List (String × Bool) →
    ReplayResult × List (String × Bool) × σ
  | [], _, s, res, outs => (res, outs, s)
  | e :: rest, i, s, res, outs =>
    let r := processEventWithRetry cfg proc e (rands i) s
    if r.success then
      replayLoop cfg proc rands rest (i + 1) r.state
        { res with processedCount := res.processedCount + 1 } (outs ++ [(e, true)])
    else
      replayLoop cfg proc rands rest (i + 1) r.state
        { res with success := false, failedCount := res.failedCount + 1 }
        (outs ++ [(e, false)])

/-- The body of one completed `DurabilityManager.replay` call on a
successfully read content: select the window and run the record loop from
the fresh accumulator. -/
def replayCore {σ : Type} (cfg : RetryConfig) (proc : σ → String → σ × Bool)
    (rands : Nat → Nat → ℚ) (content : String) (count : Int) (s : σ) :
    ReplayResult × List (String × Bool) × σ :=
  replayLoop cfg proc rands (eventsToReplay content count) 0 s initReplayResult []

/-- Errors a `DurabilityManager.replay` call can reject with. -/
inductive ReplayErr
  | replayInProgress
  | ioFailure (msg : String)
deriving DecidableEq, Repr

/-- Embedding of `DurabilityManager.replay` including the single-flight
guard: the boolean is the instance's `isReplaying` flag at entry, and the
returned boolean is the flag after the call returns or throws.  The read of
the log is modelled by its result `readResult` (an `Except` to cover I/O
errors).  The guard check happens before the flag is set; the `finally`
clears the flag on both the normal and the I/O-error exit. -/
def replayRun {σ : Type} (cfg : RetryConfig) (proc : σ → String → σ × Bool)
    (rands : Nat → Nat → ℚ) (isReplaying : Bool)
    (readResult : Except String String) (count : Int) (s : σ) :
    Except ReplayErr (ReplayResult × List (String × Bool) × σ) × Bool :=
  if isReplaying then (.error .replayInProgress, isReplaying)
  else
    match readResult with
    | .error m => (.error (.ioFailure m), false)
    | .ok content => (.ok (replayCore cfg proc rands content count s), false)

/-! ## Registry (`WALManager`)

The registry's mutable state is the set of registered names (`_logs` keys),
the set of names with an in-flight first registration (`_registering`), and
the backing files with their contents.  I/O is recorded as an operation
trace; a write failure during file creation is injected through the
`failCreate` flag. -/

/-- Registered-name and in-flight-registration state of the `WALManager`
singleton. -/
structure RegistryState where
  logs : List String
  registering : List String
deriving DecidableEq, Repr

/-- Physical I/O operations `register` can perform, in order. -/
inductive IOOp
  | mkdirBase
  | accessCheck (name : String)
  | createFile (name : String)
deriving DecidableEq, Repr

/-- Errors of the registry layer. -/
inductive WalError
  | alreadyRegistering
  | notRegistered
  | ioFailure
deriving DecidableEq, Repr

/-- Content of the backing file of `name`, if the file exists. -/
def lookupFile (fs : List (String × String)) (name : String) : Option String :=
  (fs.find? (fun p => p.1 == name)).map (fun p => p.2)

/-- Replace (or create) the backing file of `name` with `content`. -/
def updateFile (fs : List (String × String)) (name content : String) :
    List (String × String) :=
  (name, content) :: fs.filter (fun p => !(p.1 == name))

/-- Result of a `WALManager.register` call: outcome, registry state after
the call (the `finally` has removed the name from `_registering` again),
files after the call, and the I/O trace. -/
structure RegResult where
  result : Except WalError Unit
  state : RegistryState
  files : List (String × String)
  ops : List IOOp
deriving Repr

/-- Embedding of `WALManager.register`: reject a concurrent registration of
the same name; return immediately with no I/O if the name is registered;
otherwise ensure the base directory, record the name in `_logs`, probe the
file and create it only when absent.  `failCreate` injects an I/O error
thrown by the `writeFile` that creates the missing file; the error
propagates after the `finally`. -/
def register (failCreate : Bool) (st : RegistryState)
    (fs : List (String × String)) (w : WAL) : RegResult :=
  if w.fileName ∈ st.registering then ⟨.error .alreadyRegistering, st, fs, []⟩
  else if w.fileName ∈ st.logs then ⟨.ok (), st, fs, []⟩
  else
    let st1 : RegistryState := { logs := w.fileName :: st.logs, registering := st.registering }
    match lookupFile fs w.fileName with
    | some _ => ⟨.ok (), st1, fs, [.mkdirBase, .accessCheck w.fileName]⟩
    | none =>
      if failCreate then
        ⟨.error .ioFailure, st1, fs, [.mkdirBase, .accessCheck w.fileName, .createFile w.fileName]⟩
      else
        ⟨.ok (), st1, (w.fileName, "") :: fs,
          [.mkdirBase, .accessCheck w.fileName, .createFile w.fileName]⟩

/-- Embedding of `WALManager.append`: fails with `notRegistered` for an
unknown name, otherwise appends `data + "\n"` to the backing file (which
`fs.appendFile` creates when missing). -/
def walAppend (st : RegistryState) (fs : List (String × String))
    (name data : String) : Except WalError (List (String × String)) :=
  if name ∈ st.logs then
    .ok (updateFile fs name (((lookupFile fs name).getD "") ++ data ++ "\n"))
  else .error .notRegistered

/-- Embedding of `WALManager.read`: fails with `notRegistered` for an
unknown name; reading a missing backing file is an I/O failure. -/
def walRead (st : RegistryState) (fs : List (String × String))
    (name : String) : Except WalError String :=
  if name ∈ st.logs then
    match lookupFile fs name with
    | some c => .ok c
    | none => .error .ioFailure
  else .error .notRegistered

/-- Embedding of `WALManager.truncate`: fails with `notRegistered` for an
unknown name, otherwise clears the backing file's content. -/
def walTruncate (st : RegistryState) (fs : List (String × String))
    (name : String) : Except WalError (List (String × String)) :=
  if name ∈ st.logs then .ok (updateFile fs name "") else .error .notRegistered

/-! ## Helper lemmas about line splitting -/

theorem splitLines_ne_nil (cs : List Char) : splitLines cs ≠ [] := by
  cases cs with
  | nil => simp [splitLines]
  | cons c cs =>
    by_cases hc : c = '\n'
    · simp [splitLines, hc]
    · simp only [splitLines, if_neg hc]
      cases splitLines cs <;> simp

theorem splitLines_append_cons (a b : List Char) :
    splitLines (a ++ '\n' :: b) = splitLines a ++ splitLines b := by
  induction a with
  | nil => simp [splitLines]
  | cons c a ih =>
    by_cases hc : c = '\n'
    · subst hc
      simp [splitLines, ih]
    · have hne := splitLines_ne_nil a
      simp only [List.cons_append, splitLines, if_neg hc, List.append_eq]
      rw [ih]
      cases h : splitLines a with
      | nil => exact absurd h hne
      | cons l ls => simp

theorem splitLines_no_newline {l : List Char} (h : '\n' ∉ l) :
    splitLines l = [l] := by
  induction l with
  | nil => simp [splitLines]
  | cons c cs ih =>
    have hc : c ≠ '\n' := fun hh => h (hh ▸ List.mem_cons_self c cs)
    have hcs : '\n' ∉ cs := fun hh => h (List.mem_cons_of_mem c hh)
    simp [splitLines, hc, ih hcs]

theorem hexDigit_ne_newline : ∀ n < 16, hexDigit n ≠ '\n' := by decide

theorem digitChar_ne_newline : ∀ n < 10, digitChar n ≠ '\n' := by decide

theorem jsonEscapeChar_no_newline (c : Char) : '\n' ∉ jsonEscapeChar c := by
  unfold jsonEscapeChar
  split
  · decide
  · split
    · decide
    · split
      · decide
      · split
        · decide
        · split
          · decide
          · split
            · decide
            · split
              · decide
              · split
                · rename_i h1 h2 h3 h4 h5 h6 h7 hlt
                  intro hmem
                  have hdiv : c.toNat / 16 < 16 := by omega
                  have hmod : c.toNat % 16 < 16 := Nat.mod_lt _ (by omega)
                  simp only [List.mem_cons, List.not_mem_nil, or_false] at hmem
                  rcases hmem with h | h | h | h | h | h
                  · exact absurd h.symm (by decide)
                  · exact absurd h.symm (by decide)
                  · exact absurd h.symm (by decide)
                  · exact absurd h.symm (by decide)
                  · exact hexDigit_ne_newline _ hdiv h.symm
                  · exact hexDigit_ne_newline _ hmod h.symm
                · rename_i h1 h2 h3 h4 h5 h6 h7 hge
                  intro hmem
                  simp only [List.mem_cons, List.not_mem_nil, or_false] at hmem
                  exact h3 hmem.symm

theorem jsonEncodeString_no_newline (s : String) :
    '\n' ∉ (jsonEncodeString s).data := by
  intro hmem
  have hmem' : '\n' ∈ '"' :: (s.data.flatMap jsonEscapeChar ++ ['"']) := hmem
  rcases List.mem_cons.mp hmem' with h | h
  · exact (by decide : ('\n' : Char) ≠ '"') h
  · rcases List.mem_append.mp h with h2 | h2
    · obtain ⟨c, _, hc⟩ := List.mem_flatMap.mp h2
      exact jsonEscapeChar_no_newline c hc
    · exact (by decide : ('\n' : Char) ≠ '"') (List.mem_singleton.mp h2)

theorem natDigits_no_newline :
    ∀ (fuel n : Nat) (acc : List Char), (∀ x ∈ acc, x ≠ '\n') →
      ∀ x ∈ natDigits fuel n acc, x ≠ '\n' := by
  intro fuel
  induction fuel with
  | zero => intro n acc hacc; simpa [natDigits] using hacc
  | succ f ih =>
    intro n acc hacc x hx
    by_cases hn : n = 0
    · simp only [natDigits, if_pos hn] at hx
      exact hacc x hx
    · simp only [natDigits, if_neg hn] at hx
      refine ih (n / 10) _ ?_ x hx
      intro y hy
      rcases List.mem_cons.mp hy with h | h
      · subst h
        exact digitChar_ne_newline _ (Nat.mod_lt _ (by omega))
      · exact hacc y h

theorem natToDecimal_no_newline (n : Nat) : '\n' ∉ (natToDecimal n).data := by
  intro hmem
  by_cases hn : n = 0
  · simp only [natToDecimal, if_pos hn] at hmem
    exact (by decide : ('\n' : Char) ∉ "0".data) hmem
  · simp only [natToDecimal, if_neg hn] at hmem
    exact natDigits_no_newline (n + 1) n [] (by simp) '\n' hmem rfl

theorem serializeEntry_no_newline (e : WalEntry) :
    '\n' ∉ (serializeEntry e).data := by
  intro hmem
  simp only [serializeEntry, String.data_append, List.mem_append, or_assoc] at hmem
  rcases hmem with h | h | h | h | h | h | h
  · exact (by decide : ('\n' : Char) ∉ ['\x7b', '"', 'i', 'd', '"', ':']) h
  · exact jsonEncodeString_no_newline e.id h
  · exact (by decide : ('\n' : Char) ∉ [',', '"', 't', 'i', 'm', 'e', 's', 't', 'a', 'm', 'p', '"', ':']) h
  · exact natToDecimal_no_newline e.timestamp h
  · exact (by decide : ('\n' : Char) ∉ [',', '"', 'd', 'a', 't', 'a', '"', ':']) h
  · exact jsonEncodeString_no_newline e.data h
  · exact (by decide : ('\n' : Char) ∉ ['\x7d']) h

theorem serializeEntry_not_blank (e : WalEntry) :
    ¬ (serializeEntry e).data.all Char.isWhitespace := by
  intro hall
  have hmem : '\x7b' ∈ (serializeEntry e).data := by
    simp only [serializeEntry, String.data_append, List.mem_append, or_assoc]
    exact Or.inl (by decide)
  have := List.all_eq_true.mp hall _ hmem
  exact (by decide : ¬ ('\x7b'.isWhitespace = true)) this

theorem getEventCount_eq_filter (content : String) :
    getEventCount content =
      ((splitLines content.data).filter
        (fun l => !(l.all Char.isWhitespace))).length := by
  unfold getEventCount nonBlankLines splitLinesStr isBlankLine
  rw [List.filter_map, List.length_map]
  rfl

theorem getEventCount_append_line (old line : String)
    (hold : old.data = [] ∨ ∃ pre, old.data = pre ++ ['\n'])
    (hnl : '\n' ∉ line.data) (hnb : ¬ line.data.all Char.isWhitespace) :
    getEventCount (old ++ line ++ "\n") = getEventCount old + 1 := by
  rw [getEventCount_eq_filter, getEventCount_eq_filter]
  have hdata : (old ++ line ++ "\n").data = old.data ++ (line.data ++ '\n' :: []) := by
    simp [String.data_append]
  rw [hdata]
  have hline : splitLines (line.data ++ '\n' :: []) = [line.data, []] := by
    rw [splitLines_append_cons, splitLines_no_newline hnl]
    simp [splitLines]
  rcases hold with h0 | ⟨pre, hpre⟩
  · rw [h0]
    simp only [List.nil_append, hline, h0, splitLines]
    simp [List.filter, hnb]
  · rw [hpre, List.append_assoc, List.singleton_append, splitLines_append_cons, hline]
    have hold2 : splitLines (pre ++ ['\n']) = splitLines pre ++ [[]] := by
      have : pre ++ ['\n'] = pre ++ '\n' :: [] := rfl
      rw [this, splitLines_append_cons]
      simp [splitLines]
    rw [hold2]
    simp [List.filter_append, List.filter, hnb]

/-! ## Helper lemmas about the retry and replay loops -/

theorem retryFrom_always_fails {σ : Type} (cfg : RetryConfig)
    (proc : σ → String → σ × Bool) (event : String) (rand : Nat → ℚ)
    (hfail : ∀ t, (proc t event).2 = false) :
    ∀ (remaining attempt : Nat) (s : σ),
      (retryFrom cfg proc event rand remaining attempt s).success = false ∧
      (retryFrom cfg proc event rand remaining attempt s).attemptCount =
        attempt + remaining + 1 := by
  intro remaining
  induction remaining with
  | zero =>
    intro attempt s
    simp [retryFrom, hfail s]
  | succ r ih =>
    intro attempt s
    have h := ih (attempt + 1) (proc s event).1
    simp only [retryFrom, hfail s, if_false, Bool.false_eq_true]
    constructor
    · exact h.1
    · rw [h.2]; omega

theorem retryFrom_delays_get {σ : Type} (cfg : RetryConfig)
    (proc : σ → String → σ × Bool) (event : String) (rand : Nat → ℚ) :
    ∀ (remaining attempt : Nat) (s : σ) (a : Nat),
      a < (retryFrom cfg proc event rand remaining attempt s).delays.length →
      (retryFrom cfg proc event rand remaining attempt s).delays.get? a =
        some (calculateBackoffDelay cfg (attempt + a) (rand (attempt + a))) := by
  intro remaining
  induction remaining with
  | zero =>
    intro attempt s a ha
    by_cases hp : (proc s event).2 <;>
      simp [retryFrom, hp] at ha
  | succ r ih =>
    intro attempt s a ha
    by_cases hp : (proc s event).2
    · simp [retryFrom, hp] at ha
    · simp only [retryFrom, hp, Bool.false_eq_true, if_false] at ha ⊢
      cases a with
      | zero => simp
      | succ k =>
        simp only [List.get?_cons_succ]
        have := ih (attempt + 1) (proc s event).1 k (by
          simp only [List.length_cons] at ha
          omega)
        rw [this]
        have harith : attempt + 1 + k = attempt + (k + 1) := by omega
        rw [harith]

theorem replayLoop_outs {σ : Type} (cfg : RetryConfig)
    (proc : σ → String → σ × Bool) (rands : Nat → Nat → ℚ) :
    ∀ (events : List String) (i : Nat) (s : σ) (res : ReplayResult)
      (outs : List (String × Bool)),
      ((replayLoop cfg proc rands events i s res outs).2.1).map Prod.fst =
        outs.map Prod.fst ++ events := by
  intro events
  induction events with
  | nil => intro i s res outs; simp [replayLoop]
  | cons e rest ih =>
    intro i s res outs
    by_cases hs : (processEventWithRetry cfg proc e (rands i) s).success
    · simp only [replayLoop, hs, if_true]
      rw [ih]
      simp
    · simp only [replayLoop, hs, Bool.false_eq_true, if_false]
      rw [ih]
      simp

theorem replayLoop_counts {σ : Type} (cfg : RetryConfig)
    (proc : σ → String → σ × Bool) (rands : Nat → Nat → ℚ) :
    ∀ (events : List String) (i : Nat) (s : σ) (res : ReplayResult)
      (outs : List (String × Bool)),
      (replayLoop cfg proc rands events i s res outs).1.processedCount +
          (replayLoop cfg proc rands events i s res outs).1.failedCount =
        res.processedCount + res.failedCount + events.length ∧
      res.failedCount ≤ (replayLoop cfg proc rands events i s res outs).1.failedCount ∧
      (replayLoop cfg proc rands events i s res outs).1.success =
        (res.success &&
          ((replayLoop cfg proc rands events i s res outs).1.failedCount == res.failedCount)) := by
  intro events
  induction events with
  | nil =>
    intro i s res outs
    simp [replayLoop]
  | cons e rest ih =>
    intro i s res outs
    by_cases hs : (processEventWithRetry cfg proc e (rands i) s).success
    · simp only [replayLoop, hs, if_true]
      obtain ⟨h1, h2, h3⟩ := ih (i + 1)
        (processEventWithRetry cfg proc e (rands i) s).state
        { res with processedCount := res.processedCount + 1 } (outs ++ [(e, true)])
      refine ⟨by rw [h1]; simp; omega, h2, by rw [h3]⟩
    · simp only [replayLoop, hs, Bool.false_eq_true, if_false]
      obtain ⟨h1, h2, h3⟩ := ih (i + 1)
        (processEventWithRetry cfg proc e (rands i) s).state
        { res with success := false, failedCount := res.failedCount + 1 }
        (outs ++ [(e, false)])
      refine ⟨by rw [h1]; simp; omega, by simp at h2 ⊢; omega, ?_⟩
      rw [h3]
      simp only [Bool.false_and]
      have hne : (replayLoop cfg proc rands rest (i + 1)
          (processEventWithRetry cfg proc e (rands i) s).state
          { res with success := false, failedCount := res.failedCount + 1 }
          (outs ++ [(e, false)])).1.failedCount ≠ res.failedCount := by
        simp at h2
        omega
      simp [hne]

/-! ## Concrete fixtures used by the witness theorems -/

/-- Processor that throws on every invocation. -/
def alwaysFailProc : Unit → String → Unit × Bool := fun _ _ => ((), false)

/-- Processor that succeeds on every invocation. -/
def alwaysOkProc : Unit → String → Unit × Bool := fun _ _ => ((), true)

/-- Random stream that always draws one half. -/
def halfRand : Nat → ℚ := fun _ => 1 / 2

/-- Per-record random streams that always draw one half. -/
def constRands : Nat → Nat → ℚ := fun _ _ => 1 / 2

/-- Caller processor that throws exactly on the payload `"x"` and succeeds
on every other input. -/
def pC1 : String → Except String Unit :=
  fun s => if s = "x" then .error "boom" else .ok ()

/-- C1: the decode fallback in `DurableWal.replay` is NOT transparent to
processor failures.  At the envelope line for payload `"x"`, the line
decodes successfully and the caller's processor throws on the decoded
`data` field, yet the wrapped processor reports success: the `catch`
written for JSON-parse failures also catches the processor's own error and
re-invokes the processor on the raw line, absorbing the failure instead of
letting it drive the retry loop. -/
theorem c1_processor_error_absorbed :
    parseEnvelope (serializeEntry ⟨"a", 0, "x"⟩) = some ⟨"a", 0, "x"⟩ ∧
    pC1 "x" = .error "boom" ∧
    wrappedProcessor pC1 (serializeEntry ⟨"a", 0, "x"⟩) = .ok () :=
  ⟨rfl, rfl, rfl⟩

/-- C2: with a processor that fails on every invocation, the retry loop of
`DurabilityManager.processEventWithRetry` makes exactly `maxRetries + 1`
attempts and reports failure; the record loop then counts that record as
failed and moves on to the remaining records, and every record of a window
receives an outcome regardless of failures. -/
theorem c2_retry_exhaustion_continue {σ : Type} (cfg : RetryConfig)
    (proc : σ → String → σ × Bool) (event : String)
    (hfail : ∀ t, (proc t event).2 = false) :
    (∀ (rand : Nat → ℚ) (s : σ),
      (processEventWithRetry cfg proc event rand s).success = false ∧
      (processEventWithRetry cfg proc event rand s).attemptCount = cfg.maxRetries + 1) ∧
    (∀ (rands : Nat → Nat → ℚ) (rest : List String) (i : Nat) (s : σ)
        (res : ReplayResult) (outs : List (String × Bool)),
      replayLoop cfg proc rands (event :: rest) i s res outs =
        replayLoop cfg proc rands rest (i + 1)
          (processEventWithRetry cfg proc event (rands i) s).state
          { res with success := false, failedCount := res.failedCount + 1 }
          (outs ++ [(event, false)])) ∧
    (∀ (rands : Nat → Nat → ℚ) (events : List String) (i : Nat) (s : σ)
        (res : ReplayResult) (outs : List (String × Bool)),
      ((replayLoop cfg proc rands events i s res outs).2.1).map Prod.fst =
        outs.map Prod.fst ++ events) := by
  refine ⟨?_, ?_, ?_⟩
  · intro rand s
    have h := retryFrom_always_fails cfg proc event rand hfail cfg.maxRetries 0 s
    exact ⟨h.1, by rw [processEventWithRetry, h.2]; omega⟩
  · intro rands rest i s res outs
    have h := retryFrom_always_fails cfg proc event (rands i) hfail cfg.maxRetries 0 s
    simp only [replayLoop, processEventWithRetry, h.1, Bool.false_eq_true, if_false]
  · intro rands events i s res outs
    exact replayLoop_outs cfg proc rands events i s res outs

/-- Witness for C2 at the default retry configuration and an
always-failing processor: four invocations, failure, and a two-record
window where both records receive outcomes. -/
theorem c2_witness :
    (processEventWithRetry defaultRetryConfig alwaysFailProc "e" halfRand ()).success = false ∧
    (processEventWithRetry defaultRetryConfig alwaysFailProc "e" halfRand ()).attemptCount = 4 ∧
    ((replayLoop defaultRetryConfig alwaysFailProc constRands ["e", "f"] 0 ()
        initReplayResult []).2.1).map Prod.fst = ["e", "f"] := by
  have h := c2_retry_exhaustion_continue defaultRetryConfig alwaysFailProc "e"
    (fun _ => rfl)
  refine ⟨(h.1 halfRand ()).1, (h.1 halfRand ()).2, ?_⟩
  rw [h.2.2 constRands ["e", "f"] 0 () initReplayResult []]
  rfl

/-- C3: every delay the retry loop computes obeys the documented backoff
formula: the delay slept before retry `a` (the `a`-th element of the delay
trace, with the first retry at `a = 0`) equals
`floor(min(maxDelayMs, initialDelayMs * backoffMultiplier ^ a) * (1 + j))`
for a jitter `j` in `[-1/4, 1/4]` determined by the uniform draw. -/
theorem c3_backoff_formula {σ : Type} (cfg : RetryConfig)
    (proc : σ → String → σ × Bool) (event : String) (rand : Nat → ℚ)
    (s : σ) (a : Nat) (h0 : 0 ≤ rand a) (h1 : rand a < 1)
    (ha : a < (processEventWithRetry cfg proc event rand s).delays.length) :
    ∃ j : ℚ, -(1 / 4) ≤ j ∧ j ≤ 1 / 4 ∧
      (processEventWithRetry cfg proc event rand s).delays.get? a =
        some ⌊(min cfg.maxDelayMs (cfg.initialDelayMs * cfg.backoffMultiplier ^ a)) * (1 + j)⌋ := by
  refine ⟨(rand a * 2 - 1) / 4, by linarith, by linarith, ?_⟩
  have hget := retryFrom_delays_get cfg proc event rand cfg.maxRetries 0 s a ha
  simp only [Nat.zero_add] at hget
  have hkey : calculateBackoffDelay cfg a (rand a) =
      ⌊(min cfg.maxDelayMs (cfg.initialDelayMs * cfg.backoffMultiplier ^ a)) *
        (1 + (rand a * 2 - 1) / 4)⌋ := by
    unfold calculateBackoffDelay
    rw [min_comm]
    ring_nf
  rw [processEventWithRetry] at *
  rw [hget, hkey]

/-- Witness for C3 at the default configuration, an always-failing
processor and the constant draw one half, for the delay before retry 1. -/
theorem c3_witness :
    ∃ j : ℚ, -(1 / 4) ≤ j ∧ j ≤ 1 / 4 ∧
      (processEventWithRetry defaultRetryConfig alwaysFailProc "e" halfRand ()).delays.get? 1 =
        some ⌊(min defaultRetryConfig.maxDelayMs
          (defaultRetryConfig.initialDelayMs * defaultRetryConfig.backoffMultiplier ^ 1)) * (1 + j)⌋ :=
  c3_backoff_formula defaultRetryConfig alwaysFailProc "e" halfRand () 1
    (by norm_num [halfRand]) (by norm_num [halfRand]) (by decide)

/-- C4: every completed replay returns a `ReplayResult` with
`processedCount + failedCount` equal to the number of records selected for
the call, and `success` true exactly when `failedCount` is zero. -/
theorem c4_replay_result_invariant {σ : Type} (cfg : RetryConfig)
    (proc : σ → String → σ × Bool) (rands : Nat → Nat → ℚ)
    (content : String) (count : Int) (s : σ) :
    (replayCore cfg proc rands content count s).1.processedCount +
        (replayCore cfg proc rands content count s).1.failedCount =
      (eventsToReplay content count).length ∧
    ((replayCore cfg proc rands content count s).1.success = true ↔
      (replayCore cfg proc rands content count s).1.failedCount = 0) := by
  obtain ⟨h1, h2, h3⟩ := replayLoop_counts cfg proc rands
    (eventsToReplay content count) 0 s initReplayResult []
  unfold replayCore
  constructor
  · rw [h1]
    simp [initReplayResult]
  · rw [h3]
    simp [initReplayResult]

/-- Witness for C4 on a two-record log replayed with an always-succeeding
processor. -/
theorem c4_witness :
    (replayCore defaultRetryConfig alwaysOkProc constRands "a\nb\n" 2 ()).1.processedCount +
        (replayCore defaultRetryConfig alwaysOkProc constRands "a\nb\n" 2 ()).1.failedCount =
      (eventsToReplay "a\nb\n" 2).length ∧
    ((replayCore defaultRetryConfig alwaysOkProc constRands "a\nb\n" 2 ()).1.success = true ↔
      (replayCore defaultRetryConfig alwaysOkProc constRands "a\nb\n" 2 ()).1.failedCount = 0) :=
  c4_replay_result_invariant defaultRetryConfig alwaysOkProc constRands "a\nb\n" 2 ()

/-- C5: `DurableWal.inspect` and `DurabilityManager.replay` select the same
record window from the non-blank lines: empty for a count at most zero,
otherwise the suffix of length `min count available` (oldest-to-newest),
with an over-large count yielding the whole list rather than an error. -/
theorem c5_window_selection (content : String) (count : Int) :
    inspectWindow content count = eventsToReplay content count ∧
    (count ≤ 0 → eventsToReplay content count = []) ∧
    (0 < count →
      List.IsSuffix (eventsToReplay content count) (nonBlankLines content) ∧
      (eventsToReplay content count).length =
        min count.toNat (nonBlankLines content).length ∧
      ((nonBlankLines content).length ≤ count.toNat →
        eventsToReplay content count = nonBlankLines content)) := by
  refine ⟨rfl, ?_, ?_⟩
  · intro h
    simp [eventsToReplay, h]
  · intro h
    have hnot : ¬ count ≤ 0 := by omega
    have htn : 0 < count.toNat := by omega
    refine ⟨?_, ?_, ?_⟩
    · simp only [eventsToReplay, if_neg hnot]
      exact List.drop_suffix _ _
    · simp only [eventsToReplay, if_neg hnot, List.length_drop]
      omega
    · intro hle
      simp only [eventsToReplay, if_neg hnot]
      have hz : (nonBlankLines content).length - count.toNat = 0 := by omega
      rw [hz, List.drop_zero]

/-- Witness for C5 on a three-record log with a window of two. -/
theorem c5_witness :
    inspectWindow "a\nb\nc\n" 2 = eventsToReplay "a\nb\nc\n" 2 ∧
    List.IsSuffix (eventsToReplay "a\nb\nc\n" 2) (nonBlankLines "a\nb\nc\n") ∧
    (eventsToReplay "a\nb\nc\n" 2).length =
      min ((2 : Int)).toNat (nonBlankLines "a\nb\nc\n").length := by
  have h := c5_window_selection "a\nb\nc\n" 2
  exact ⟨h.1, (h.2.2 (by norm_num)).1, (h.2.2 (by norm_num)).2.1⟩

/-- C6: the single-flight guard of `DurabilityManager.replay`: a call on an
instance whose replay is in progress fails immediately with
`replayInProgress` and leaves the flag alone; a call that enters — whether
it returns a result or an I/O error aborts it — leaves the guard released,
so a subsequent call on the same instance is never rejected with
`replayInProgress`. -/
theorem c6_single_flight {σ : Type} (cfg : RetryConfig)
    (proc : σ → String → σ × Bool) (rands : Nat → Nat → ℚ)
    (readResult : Except String String) (count : Int) (s : σ) :
    replayRun cfg proc rands true readResult count s = (.error .replayInProgress, true) ∧
    (replayRun cfg proc rands false readResult count s).2 = false ∧
    (∀ (readResult2 : Except String String) (count2 : Int) (s2 : σ),
      (replayRun cfg proc rands (replayRun cfg proc rands false readResult count s).2
        readResult2 count2 s2).1 ≠ .error .replayInProgress) := by
  have h2 : (replayRun cfg proc rands false readResult count s).2 = false := by
    cases readResult <;> simp [replayRun]
  refine ⟨rfl, h2, ?_⟩
  intro rr2 c2 s2
  rw [h2]
  cases rr2 <;> simp [replayRun]

/-- Witness for C6: a rejected concurrent call, guard release after an
I/O-error abort, and acceptance of the follow-up call. -/
theorem c6_witness :
    replayRun defaultRetryConfig alwaysOkProc constRands true (.error "disk") 1 () =
      (.error .replayInProgress, true) ∧
    (replayRun defaultRetryConfig alwaysOkProc constRands false (.error "disk") 1 ()).2 = false ∧
    (replayRun defaultRetryConfig alwaysOkProc constRands
      (replayRun defaultRetryConfig alwaysOkProc constRands false (.error "disk") 1 ()).2
      (.ok "a\n") 1 ()).1 ≠ .error .replayInProgress := by
  have h := c6_single_flight defaultRetryConfig alwaysOkProc constRands (.error "disk") 1 ()
  exact ⟨h.1, h.2.1, h.2.2 (.ok "a\n") 1 ()⟩

/-- C7: `WALManager.register` is idempotent and race-guarded: a registered
name (with no registration of it in flight) returns immediately with no
I/O and no state change; a fresh name creates the backing file only when
it is absent and records the name; registering the same name twice
produces no duplicate file and no content loss; and a second registration
racing an in-flight registration of the same name fails with
`alreadyRegistering`. -/
theorem c7_register_idempotent (st : RegistryState) (fs : List (String × String))
    (w : WAL) (failCreate : Bool) :
    (w.fileName ∈ st.registering →
      register failCreate st fs w = ⟨.error .alreadyRegistering, st, fs, []⟩) ∧
    (w.fileName ∉ st.registering → w.fileName ∈ st.logs →
      register failCreate st fs w = ⟨.ok (), st, fs, []⟩) ∧
    (∀ c, w.fileName ∉ st.registering → w.fileName ∉ st.logs →
      lookupFile fs w.fileName = some c →
      register failCreate st fs w =
        ⟨.ok (), ⟨w.fileName :: st.logs, st.registering⟩, fs,
          [.mkdirBase, .accessCheck w.fileName]⟩) ∧
    (w.fileName ∉ st.registering → w.fileName ∉ st.logs →
      lookupFile fs w.fileName = none →
      register false st fs w =
        ⟨.ok (), ⟨w.fileName :: st.logs, st.registering⟩, (w.fileName, "") :: fs,
          [.mkdirBase, .accessCheck w.fileName, .createFile w.fileName]⟩) ∧
    (w.fileName ∉ st.registering → w.fileName ∉ st.logs →
      register false (register false st fs w).state (register false st fs w).files w =
        ⟨.ok (), (register false st fs w).state, (register false st fs w).files, []⟩) := by
  refine ⟨?_, ?_, ?_, ?_, ?_⟩
  · intro h
    simp [register, h]
  · intro h1 h2
    simp [register, h1, h2]
  · intro c h1 h2 hc
    simp [register, h1, h2, hc]
  · intro h1 h2 hc
    simp [register, h1, h2, hc]
  · intro h1 h2
    cases hc : lookupFile fs w.fileName with
    | some c =>
      have hr : register false st fs w =
          ⟨.ok (), ⟨w.fileName :: st.logs, st.registering⟩, fs,
            [.mkdirBase, .accessCheck w.fileName]⟩ := by
        simp [register, h1, h2, hc]
      rw [hr]
      simp [register, h1]
    | none =>
      have hr : register false st fs w =
          ⟨.ok (), ⟨w.fileName :: st.logs, st.registering⟩, (w.fileName, "") :: fs,
            [.mkdirBase, .accessCheck w.fileName, .createFile w.fileName]⟩ := by
        simp [register, h1, h2, hc]
      rw [hr]
      simp [register, h1]

/-- Witness for C7 on a fresh registry: registration creates the file,
re-registration is a no-op, and a racing registration is rejected. -/
theorem c7_witness :
    register false ⟨[], ["test.wal"]⟩ [] ⟨"test.wal"⟩ =
      ⟨.error .alreadyRegistering, ⟨[], ["test.wal"]⟩, [], []⟩ ∧
    register false ⟨[], []⟩ [] ⟨"test.wal"⟩ =
      ⟨.ok (), ⟨["test.wal"], []⟩, [("test.wal", "")],
        [.mkdirBase, .accessCheck "test.wal", .createFile "test.wal"]⟩ ∧
    register false (register false ⟨[], []⟩ [] ⟨"test.wal"⟩).state
        (register false ⟨[], []⟩ [] ⟨"test.wal"⟩).files ⟨"test.wal"⟩ =
      ⟨.ok (), (register false ⟨[], []⟩ [] ⟨"test.wal"⟩).state,
        (register false ⟨[], []⟩ [] ⟨"test.wal"⟩).files, []⟩ := by
  have h1 := c7_register_idempotent ⟨[], ["test.wal"]⟩ [] ⟨"test.wal"⟩ false
  have h2 := c7_register_idempotent ⟨[], []⟩ [] ⟨"test.wal"⟩ false
  exact ⟨h1.1 (by simp), h2.2.2.2.1 (by simp) (by simp) rfl,
    h2.2.2.2.2 (by simp) (by simp)⟩

/-- C9: `WALManager.register` is not atomic on failure: the name is put in
the registry map before the backing file is created, so an injected file
creation failure propagates as an error while the name stays registered;
a later register returns immediately with no I/O and no retry of the file
creation, and append, read and truncate on the name do not fail with
`notRegistered`. -/
theorem c9_register_not_atomic (st : RegistryState) (fs : List (String × String))
    (w : WAL) (h1 : w.fileName ∉ st.registering) (h2 : w.fileName ∉ st.logs)
    (h3 : lookupFile fs w.fileName = none) :
    (register true st fs w).result = .error .ioFailure ∧
    w.fileName ∈ (register true st fs w).state.logs ∧
    (register true st fs w).files = fs ∧
    register false (register true st fs w).state (register true st fs w).files w =
      ⟨.ok (), (register true st fs w).state, (register true st fs w).files, []⟩ ∧
    (∀ d, walAppend (register true st fs w).state (register true st fs w).files
      w.fileName d ≠ .error .notRegistered) ∧
    walRead (register true st fs w).state (register true st fs w).files
      w.fileName ≠ .error .notRegistered ∧
    walTruncate (register true st fs w).state (register true st fs w).files
      w.fileName ≠ .error .notRegistered := by
  have hr : register true st fs w =
      ⟨.error .ioFailure, ⟨w.fileName :: st.logs, st.registering⟩, fs,
        [.mkdirBase, .accessCheck w.fileName, .createFile w.fileName]⟩ := by
    simp [register, h1, h2, h3]
  rw [hr]
  have hmem : w.fileName ∈ w.fileName :: st.logs := List.mem_cons_self _ _
  refine ⟨rfl, hmem, rfl, ?_, ?_, ?_, ?_⟩
  · simp [register, h1]
  · intro d
    simp [walAppend, hmem]
  · simp [walRead, hmem, h3]
  · simp [walTruncate, hmem]

/-- Witness for C9 on a fresh registry whose file creation fails. -/
theorem c9_witness :
    (register true ⟨[], []⟩ [] ⟨"test.wal"⟩).result = .error .ioFailure ∧
    "test.wal" ∈ (register true ⟨[], []⟩ [] ⟨"test.wal"⟩).state.logs ∧
    register false (register true ⟨[], []⟩ [] ⟨"test.wal"⟩).state
        (register true ⟨[], []⟩ [] ⟨"test.wal"⟩).files ⟨"test.wal"⟩ =
      ⟨.ok (), (register true ⟨[], []⟩ [] ⟨"test.wal"⟩).state,
        (register true ⟨[], []⟩ [] ⟨"test.wal"⟩).files, []⟩ ∧
    walRead (register true ⟨[], []⟩ [] ⟨"test.wal"⟩).state
      (register true ⟨[], []⟩ [] ⟨"test.wal"⟩).files "test.wal" ≠ .error .notRegistered := by
  have h := c9_register_not_atomic ⟨[], []⟩ [] ⟨"test.wal"⟩ (by simp) (by simp) rfl
  exact ⟨h.1, h.2.1, h.2.2.2.1, h.2.2.2.2.2.1⟩

/-- C8: the builder's name validation rejects only a missing or
empty-string name: every non-empty name — whitespace-only names included —
builds a handle carrying exactly that name, even though
`DurableWal.append` rejects whitespace-only content. -/
theorem c8_builder_accepts_nonempty (s : String) (hs : s ≠ "") :
    walBuilderBuild (walBuilderFile walBuilderInit s) = .ok ⟨s⟩ ∧
    walBuilderBuild (some "") = .error "fileName is required" ∧
    walBuilderBuild none = .error "fileName is required" ∧
    (s.data.all Char.isWhitespace → acceptsContent s = false) := by
  refine ⟨?_, rfl, rfl, ?_⟩
  · simp [walBuilderBuild, walBuilderFile, walBuilderInit, hs]
  · intro hws
    simp [acceptsContent, isBlankLine, hws]

/-- Witness for C8 at the whitespace-only name of three spaces. -/
theorem c8_witness :
    walBuilderBuild (walBuilderFile walBuilderInit "   ") = .ok ⟨"   "⟩ ∧
    acceptsContent "   " = false := by
  have h := c8_builder_accepts_nonempty "   " (by decide)
  exact ⟨h.1, h.2.2.2 (by decide)⟩

/-- C10: one accepted append writes exactly one physical line: the
serialized envelope contains no raw newline — JSON string encoding escapes
embedded newlines in the payload (and in the id) — and appending
`serialized + "\n"` to any well-formed stored content increases the
non-blank line count, hence `getEntryCount`, by exactly one. -/
theorem c10_append_single_line (id content old : String) (ts : Nat)
    (_hacc : acceptsContent content = true)
    (hold : old.data = [] ∨ ∃ pre, old.data = pre ++ ['\n']) :
    '\n' ∉ (serializeEntry ⟨id, ts, content⟩).data ∧
    getEventCount (old ++ serializeEntry ⟨id, ts, content⟩ ++ "\n") =
      getEventCount old + 1 := by
  refine ⟨serializeEntry_no_newline _, ?_⟩
  exact getEventCount_append_line old (serializeEntry ⟨id, ts, content⟩) hold
    (serializeEntry_no_newline _) (serializeEntry_not_blank _)

/-- Witness for C10: a payload containing a raw newline, appended to the
empty log, still yields exactly one new stored entry. -/
theorem c10_witness :
    acceptsContent "x\ny" = true ∧
    '\n' ∉ (serializeEntry ⟨"a", 0, "x\ny"⟩).data ∧
    getEventCount ("" ++ serializeEntry ⟨"a", 0, "x\ny"⟩ ++ "\n") =
      getEventCount "" + 1 := by
  have h := c10_append_single_line "a" "x\ny" "" 0 (by decide) (Or.inl rfl)
  exact ⟨by decide, h.1, h.2⟩
